import Mathlib

/-
Shallow embedding of the LaTeX normalization engine of src/server/mathml.ts
(functions normalizeLatex, cleanEnvironments, rewriteLeftScripts,
normalizeDerivatives, their readers, and the MathML accent pass
enforceMoverAccents).  Source strings are modelled as List Char with Nat
cursor positions; every JavaScript scanning loop becomes a structurally
recursive function on an explicit fuel argument, and each top-level wrapper
passes fuel (length + 1), which is enough because every loop branch strictly
advances the cursor (proved below).
-/

/-- Convert a string literal to the character-list representation used by the
embedding. -/
def toL (s : String) : List Char := s.data

/-- The slice source.slice(a, b) of JavaScript: characters at positions
a, a+1, ..., b-1. -/
def sliceL (s : List Char) (a b : Nat) : List Char := (s.take b).drop a

/-- The whitespace class used by the JavaScript regexes (the ASCII part of
the \s class plus the no-break space). -/
def isWs (c : Char) : Bool :=
  c = ' ' || c = '\t' || c = '\n' || c = '\x0d' || c = '\x0b' || c = '\x0c' || c = '\u00A0'

/-- The character class [a-zA-Z] of the JavaScript regexes. -/
def isAsciiLetter (c : Char) : Bool :=
  ('a' ≤ c && c ≤ 'z') || ('A' ≤ c && c ≤ 'Z')

/-- The word-character class used by the \b boundary of the JavaScript
regexes: [A-Za-z0-9_]. -/
def isWordChar (c : Char) : Bool :=
  isAsciiLetter c || ('0' ≤ c && c ≤ '9') || c = '_'

/-- Number of consecutive ASCII letters starting at position i: the length of
the match of [a-zA-Z]* there. -/
def countLetters (s : List Char) (i : Nat) : Nat :=
  ((s.drop i).takeWhile isAsciiLetter).length

/-- First position at or after i holding a non-whitespace character (or the
end of the string): the while-loops skipping /\s/ characters. -/
def skipWs (s : List Char) (i : Nat) : Nat :=
  i + ((s.drop i).takeWhile isWs).length

/-- Does the pattern pat occur in s starting exactly at position i? -/
def startsWithAt (s pat : List Char) (i : Nat) : Bool :=
  pat.isPrefixOf (s.drop i)

/-- Is the optional character an ASCII letter (an absent character is not)? -/
def isLetterOpt (o : Option Char) : Bool :=
  match o with
  | some c => isAsciiLetter c
  | none => false

/-- Result of readScript: interface ScriptResult of the source. -/
structure ScriptResult where
  type : Char
  value : List Char
  endPos : Nat
deriving DecidableEq, Repr

/-- Result of matchLeftScripts: interface ScriptMatch of the source. -/
structure ScriptMatch where
  sub : List Char
  sup : List Char
  nextIndex : Nat
deriving DecidableEq, Repr

/-- Result of readGroup: interface GroupResult of the source. -/
structure GroupResult where
  content : List Char
  endPos : Nat
deriving DecidableEq, Repr

/-- Result of readBaseToken and readDerivativeTarget: interface
BaseTokenResult of the source. -/
structure BaseTokenResult where
  token : List Char
  endPos : Nat
  whitespace : List Char
deriving DecidableEq, Repr

/-- Result of detectDerivativeCommand: interface DerivativeCommand of the
source. -/
structure DerivativeCommand where
  order : Nat
  nextIndex : Nat
deriving DecidableEq, Repr

/-- Result of collectAttachedScripts: the anonymous record with fields
text and end of the source. -/
structure AttachedScripts where
  text : List Char
  endPos : Nat
deriving DecidableEq, Repr

/-- Loop body of readGroup: scans from idx keeping the brace depth counter,
incrementing on an opening brace, decrementing on a closing brace and
returning when the depth returns to zero, and skipping the character after a
backslash. -/
def readGroupLoopF : Nat → List Char → Int → Nat → Nat → Option GroupResult
  | 0, _, _, _, _ => none
  | f+1, s, depth, start, idx =>
    match s.get? idx with
    | none => none
    | some c =>
      if c = '\x7b' then readGroupLoopF f s (depth + 1) start (idx + 1)
      else if c = '\x7d' then
        if depth - 1 = 0 then some ⟨sliceL s (start + 1) idx, idx + 1⟩
        else readGroupLoopF f s (depth - 1) start (idx + 1)
      else if c = '\\' then readGroupLoopF f s depth start (idx + 2)
      else readGroupLoopF f s depth start (idx + 1)

/-- readGroup of the source: reads one balanced brace group starting at an
opening brace; fails on any other start character or an unterminated group. -/
def readGroup (s : List Char) (start : Nat) : Option GroupResult :=
  if s.get? start = some '\x7b' then readGroupLoopF (s.length + 1) s 0 start start
  else none

/-- readScript of the source: reads one script attachment at an underscore or
caret, whose value is a brace group, a backslash command, or one character. -/
def readScript (s : List Char) (start : Nat) : Option ScriptResult :=
  match s.get? start with
  | none => none
  | some ind =>
    if ind = '_' ∨ ind = '^' then
      match s.get? (skipWs s (start + 1)) with
      | none => none
      | some c =>
        if c = '\x7b' then
          match readGroup s (skipWs s (start + 1)) with
          | none => none
          | some g => some ⟨ind, g.content, g.endPos⟩
        else if c = '\\' then
          if countLetters s (skipWs s (start + 1) + 1) = 0 then none
          else some ⟨ind,
            sliceL s (skipWs s (start + 1))
              (skipWs s (start + 1) + 1 + countLetters s (skipWs s (start + 1) + 1)),
            skipWs s (start + 1) + 1 + countLetters s (skipWs s (start + 1) + 1)⟩
        else some ⟨ind, [c], skipWs s (start + 1) + 1⟩
    else none

/-- wrapWithBraces of the source: trim the value, return an empty group for an
empty value, keep a value already wrapped in braces, else wrap it. -/
def trimWs (l : List Char) : List Char :=
  ((l.dropWhile isWs).reverse.dropWhile isWs).reverse

def wrapWithBraces (value : List Char) : List Char :=
  if (trimWs value).isEmpty then toL "\x7b\x7d"
  else if (trimWs value).head? = some '\x7b' ∧ (trimWs value).getLast? = some '\x7d' then
    trimWs value
  else '\x7b' :: (trimWs value ++ ['\x7d'])

/-- Loop of collectAttachedScripts of the source: while the cursor is inside
the string, look past whitespace for a further script; on success append the
skipped whitespace, the script indicator and the brace-wrapped value, and
continue after the script. -/
def collectAttachedScriptsF : Nat → List Char → Nat → AttachedScripts
  | 0, _, i => ⟨[], i⟩
  | f+1, s, cursor =>
    if cursor < s.length then
      match readScript s (skipWs s cursor) with
      | none => ⟨[], cursor⟩
      | some r =>
        ⟨sliceL s cursor (skipWs s cursor) ++ (r.type :: wrapWithBraces r.value)
            ++ (collectAttachedScriptsF f s r.endPos).text,
          (collectAttachedScriptsF f s r.endPos).endPos⟩
    else ⟨[], cursor⟩

def collectAttachedScripts (s : List Char) (i : Nat) : AttachedScripts :=
  collectAttachedScriptsF (s.length + 1) s i

/-- readBaseToken of the source: record leading whitespace, then read a
command (with an optional following group), a group, or one character, and
absorb further attached scripts; in the command and group cases the absorbed
scripts are appended to the token, in the single-character case the token is
the character alone though the scripts are still consumed. -/
def readBaseToken (s : List Char) (start : Nat) : Option BaseTokenResult :=
  match s.get? (skipWs s start) with
  | none => none
  | some c =>
    if c = '\\' then
      if countLetters s (skipWs s start + 1) = 0 then none
      else
        match s.get? (skipWs s start + 1 + countLetters s (skipWs s start + 1)),
            readGroup s (skipWs s start + 1 + countLetters s (skipWs s start + 1)) with
        | some '\x7b', some g =>
          some ⟨sliceL s (skipWs s start) g.endPos ++ (collectAttachedScripts s g.endPos).text,
            (collectAttachedScripts s g.endPos).endPos, sliceL s start (skipWs s start)⟩
        | _, _ =>
          some ⟨sliceL s (skipWs s start) (skipWs s start + 1 + countLetters s (skipWs s start + 1))
              ++ (collectAttachedScripts s
                    (skipWs s start + 1 + countLetters s (skipWs s start + 1))).text,
            (collectAttachedScripts s
                (skipWs s start + 1 + countLetters s (skipWs s start + 1))).endPos,
            sliceL s start (skipWs s start)⟩
    else if c = '\x7b' then
      match readGroup s (skipWs s start) with
      | none => none
      | some g =>
        some ⟨sliceL s (skipWs s start) g.endPos ++ (collectAttachedScripts s g.endPos).text,
          (collectAttachedScripts s g.endPos).endPos, sliceL s start (skipWs s start)⟩
    else
      some ⟨[c], (collectAttachedScripts s (skipWs s start + 1)).endPos,
        sliceL s start (skipWs s start)⟩

/-- The character class of matchLeftScripts that a bare script indicator may
be preceded by. -/
def leadCharOk (c : Char) : Bool :=
  isWs c || c = '(' || c = '[' || c = '\x7b' || c = '=' || c = '+' || c = '-' || c = '*' || c = '/'

/-- The loop of matchLeftScripts reading up to two scripts, skipping
whitespace after each one. -/
def readUpToTwo (s : List Char) (cursor : Nat) : List ScriptResult × Nat :=
  match readScript s cursor with
  | none => ([], cursor)
  | some r1 =>
    match readScript s (skipWs s r1.endPos) with
    | none => ([r1], skipWs s r1.endPos)
    | some r2 => ([r1, r2], skipWs s r2.endPos)

/-- The tail of matchLeftScripts: fail when no script was read, otherwise
fold the scripts into the sub and sup sides, a later script of the same kind
overwriting an earlier one. -/
def scriptsToMatch (scripts : List ScriptResult) (cursor : Nat) : Option ScriptMatch :=
  if scripts.isEmpty then none
  else
    some ⟨(scripts.foldl (fun (p : List Char × List Char) r =>
        if r.type = '_' then (r.value, p.2)
        else if r.type = '^' then (p.1, r.value) else p) ([], [])).1,
      (scripts.foldl (fun (p : List Char × List Char) r =>
        if r.type = '_' then (r.value, p.2)
        else if r.type = '^' then (p.1, r.value) else p) ([], [])).2,
      cursor⟩

/-- matchLeftScripts of the source: lead-in (a) an explicit empty-base
marker followed by optional whitespace, or (b) a bare script indicator whose
preceding character, when the position is not zero, lies in the accepted
class; then up to two scripts, at least one being required. -/
def matchLeftScripts (s : List Char) (start : Nat) : Option ScriptMatch :=
  if s.get? start = some '\x7b' ∧ s.get? (start + 1) = some '\x7d' then
    scriptsToMatch (readUpToTwo s (skipWs s (start + 2))).1 (readUpToTwo s (skipWs s (start + 2))).2
  else if s.get? start = some '^' ∨ s.get? start = some '_' then
    if start = 0 then
      scriptsToMatch (readUpToTwo s start).1 (readUpToTwo s start).2
    else
      match s.get? (start - 1) with
      | some p =>
        if leadCharOk p then
          scriptsToMatch (readUpToTwo s start).1 (readUpToTwo s start).2
        else none
      | none => none
  else none

/-- shouldSkipBase of the source. -/
def disallowedBases : List (List Char) :=
  [toL "\\left", toL "\\right", toL "\\big", toL "\\Big", toL "\\bigg", toL "\\Bigg"]

def shouldSkipBase (token : List Char) : Bool :=
  if (trimWs token).isEmpty then true
  else disallowedBases.any (fun p => p.isPrefixOf (trimWs token))

/-- detectDerivativeCommand of the source: the double-dot command, then the
single-dot command, each accepted only when the following character is not a
letter. -/
def detectDerivativeCommand (s : List Char) (i : Nat) : Option DerivativeCommand :=
  if startsWithAt s (toL "\\ddot") i && !(isLetterOpt (s.get? (i + 5))) then some ⟨2, i + 5⟩
  else if startsWithAt s (toL "\\dot") i && !(isLetterOpt (s.get? (i + 4))) then some ⟨1, i + 4⟩
  else none

/-- readDerivativeTarget of the source: after whitespace read a group, a
command with an optional group plus attached scripts, or a character plus
attached scripts; the token is the literal slice of the source up to the
final position. -/
def readDerivativeTarget (s : List Char) (start : Nat) : Option BaseTokenResult :=
  match s.get? (skipWs s start) with
  | none => none
  | some c =>
    if c = '\x7b' then
      match readGroup s (skipWs s start) with
      | none => none
      | some g => some ⟨sliceL s (skipWs s start) g.endPos, g.endPos, []⟩
    else if c = '\\' then
      if countLetters s (skipWs s start + 1) = 0 then none
      else
        match s.get? (skipWs s start + 1 + countLetters s (skipWs s start + 1)),
            readGroup s (skipWs s start + 1 + countLetters s (skipWs s start + 1)) with
        | some '\x7b', some g =>
          some ⟨sliceL s (skipWs s start) (collectAttachedScripts s g.endPos).endPos,
            (collectAttachedScripts s g.endPos).endPos, []⟩
        | _, _ =>
          some ⟨sliceL s (skipWs s start)
              (collectAttachedScripts s
                (skipWs s start + 1 + countLetters s (skipWs s start + 1))).endPos,
            (collectAttachedScripts s
                (skipWs s start + 1 + countLetters s (skipWs s start + 1))).endPos, []⟩
    else
      some ⟨sliceL s (skipWs s start) (collectAttachedScripts s (skipWs s start + 1)).endPos,
        (collectAttachedScripts s (skipWs s start + 1)).endPos, []⟩

/-- The empty-side default of rewriteLeftScripts: a falsy (empty) script
value is replaced by the strut placeholder. -/
def orMathstrut (v : List Char) : List Char :=
  if v.isEmpty then toL "\\mathstrut" else v

/-- The text emitted by rewriteLeftScripts for an accepted match: leading
whitespace, a zero-width horizontal space, and the prescript construct
carrying the superscript, the subscript, then the base. -/
def prescriptEmit (m : ScriptMatch) (b : BaseTokenResult) : List Char :=
  b.whitespace ++ toL "\\hspace\x7b0pt\x7d\\prescript"
    ++ wrapWithBraces (orMathstrut m.sup) ++ wrapWithBraces (orMathstrut m.sub)
    ++ wrapWithBraces b.token

/-- The scanning loop of rewriteLeftScripts. -/
def rewriteLeftScriptsF : Nat → List Char → Nat → List Char
  | 0, _, _ => []
  | f+1, s, i =>
    match s.get? i with
    | none => []
    | some c =>
      match matchLeftScripts s i with
      | some m =>
        match readBaseToken s m.nextIndex with
        | some b =>
          if shouldSkipBase b.token then
            sliceL s i b.endPos ++ rewriteLeftScriptsF f s b.endPos
          else
            prescriptEmit m b ++ rewriteLeftScriptsF f s b.endPos
        | none => sliceL s i m.nextIndex ++ rewriteLeftScriptsF f s m.nextIndex
      | none => c :: rewriteLeftScriptsF f s (i + 1)

def rewriteLeftScripts (s : List Char) : List Char :=
  rewriteLeftScriptsF (s.length + 1) s 0

/-- The scanning loop of normalizeDerivatives: on a derivative command with a
readable target emit the overset overlay with the dot-above or diaeresis
glyph, else copy one character. -/
def normalizeDerivativesF : Nat → List Char → Nat → List Char
  | 0, _, _ => []
  | f+1, s, i =>
    match s.get? i with
    | none => []
    | some c =>
      match detectDerivativeCommand s i with
      | some d =>
        match readDerivativeTarget s d.nextIndex with
        | some t =>
          toL "\\overset\x7b" ++ [if d.order = 1 then '\u02D9' else '\u00A8'] ++ ['\x7d']
            ++ wrapWithBraces t.token ++ normalizeDerivativesF f s t.endPos
        | none => c :: normalizeDerivativesF f s (i + 1)
      | none => c :: normalizeDerivativesF f s (i + 1)

def normalizeDerivatives (s : List Char) : List Char :=
  normalizeDerivativesF (s.length + 1) s 0

/-- Collapse every whitespace run to one space: content.replace of the \s+
pattern with a single space inside cleanEnvironments. -/
def collapseWsAux : List Char → Bool → List Char
  | [], _ => []
  | c :: rest, prevWs =>
    if isWs c then
      if prevWs then collapseWsAux rest true
      else ' ' :: collapseWsAux rest true
    else c :: collapseWsAux rest false

def collapseWs (l : List Char) : List Char := collapseWsAux l false

/-- Index of the first closing brace at or after position j, for the
greedy [^...]* captures of the cleanup regexes. -/
def findCharFrom (s : List Char) (c : Char) (j : Nat) : Option Nat :=
  ((s.drop j).findIdx? (fun d => d = c)).map (fun k => k + j)

/-- First pass of cleanEnvironments: delete every occurrence of the limits
command that ends at a word boundary. -/
def replaceLimitsF : Nat → List Char → Nat → List Char
  | 0, _, _ => []
  | f+1, s, i =>
    match s.get? i with
    | none => []
    | some c =>
      if startsWithAt s (toL "\\limits") i
          && !(match s.get? (i + 7) with | some d => isWordChar d | none => false) then
        replaceLimitsF f s (i + 7)
      else c :: replaceLimitsF f s (i + 1)

def replaceLimits (s : List Char) : List Char := replaceLimitsF (s.length + 1) s 0

/-- Second pass of cleanEnvironments: rewrite the braced bold-shorthand
command into the standard bold command. -/
def replaceBmGroupF : Nat → List Char → Nat → List Char
  | 0, _, _ => []
  | f+1, s, i =>
    match s.get? i with
    | none => []
    | some c =>
      if startsWithAt s (toL "\\bm") i && s.get? (skipWs s (i + 3)) = some '\x7b' then
        match findCharFrom s '\x7d' (skipWs s (i + 3) + 1) with
        | some k =>
          toL "\\mathbf\x7b" ++ sliceL s (skipWs s (i + 3) + 1) k ++ ['\x7d']
            ++ replaceBmGroupF f s (k + 1)
        | none => c :: replaceBmGroupF f s (i + 1)
      else c :: replaceBmGroupF f s (i + 1)

def replaceBmGroup (s : List Char) : List Char := replaceBmGroupF (s.length + 1) s 0

/-- Third pass of cleanEnvironments: rewrite the bold shorthand with a
single-letter argument separated by whitespace. -/
def replaceBmLetterF : Nat → List Char → Nat → List Char
  | 0, _, _ => []
  | f+1, s, i =>
    match s.get? i with
    | none => []
    | some c =>
      if startsWithAt s (toL "\\bm") i
          && (match s.get? (i + 3) with | some d => isWs d | none => false)
          && isLetterOpt (s.get? (skipWs s (i + 3))) then
        match s.get? (skipWs s (i + 3)) with
        | some d => toL "\\mathbf\x7b" ++ [d] ++ ['\x7d'] ++ replaceBmLetterF f s (skipWs s (i + 3) + 1)
        | none => c :: replaceBmLetterF f s (i + 1)
      else c :: replaceBmLetterF f s (i + 1)

def replaceBmLetter (s : List Char) : List Char := replaceBmLetterF (s.length + 1) s 0

/-- Fourth pass of cleanEnvironments: normalize whitespace inside a text
block, an all-whitespace block becoming an explicit empty block. -/
def replaceTextCmdF : Nat → List Char → Nat → List Char
  | 0, _, _ => []
  | f+1, s, i =>
    match s.get? i with
    | none => []
    | some c =>
      if startsWithAt s (toL "\\text") i && s.get? (skipWs s (i + 5)) = some '\x7b' then
        match findCharFrom s '\x7d' (skipWs s (i + 5) + 1) with
        | some k =>
          (if (trimWs (collapseWs (sliceL s (skipWs s (i + 5) + 1) k))).isEmpty then
            toL "\\text\x7b\x7d"
          else toL "\\text\x7b" ++ trimWs (collapseWs (sliceL s (skipWs s (i + 5) + 1) k)) ++ ['\x7d'])
            ++ replaceTextCmdF f s (k + 1)
        | none => c :: replaceTextCmdF f s (i + 1)
      else c :: replaceTextCmdF f s (i + 1)

def replaceTextCmd (s : List Char) : List Char := replaceTextCmdF (s.length + 1) s 0

/-- cleanEnvironments of the source: the four textual substitutions in their
source order. -/
def cleanEnvironments (latex : List Char) : List Char :=
  replaceTextCmd (replaceBmLetter (replaceBmGroup (replaceLimits latex)))

/-- normalizeLatex of the source: empty input short-circuits to empty
output, otherwise clean, rewrite left scripts, then normalize derivatives. -/
def normalizeLatex (latex : List Char) : List Char :=
  if latex.isEmpty then []
  else normalizeDerivatives (rewriteLeftScripts (cleanEnvironments latex))

/-- Position of the first occurrence of the pattern pat at or after position
p, the search the lazy and single-character captures of the mover regex
perform. -/
def findFromF : Nat → List Char → List Char → Nat → Option Nat
  | 0, _, _, _ => none
  | f+1, s, pat, p =>
    if s.length < p then none
    else if startsWithAt s pat p then some p
    else findFromF f s pat (p + 1)

def findFrom (s pat : List Char) (p : Nat) : Option Nat :=
  findFromF (s.length + 1) s pat p

/-- Modelled from the spec: the dot-pattern regex literal of
enforceMoverAccents (mathml.ts line 374) is malformed in the source — the
slash of its closing mo tag is unescaped, unlike every sibling regex in the
file, so the literal terminates early with the invalid flags "mo", a
JavaScript syntax error, and the written pattern has no defined behavior.
These six alternatives follow the spec's wording for the evidently intended
pattern: the dot and double-dot glyphs as literal characters, numeric
entities and named entities. -/
def moAlts : List (List Char) :=
  [toL "˙", toL "¨", toL "&#x02D9;", toL "&#x00A8;", toL "&Dot;", toL "&DoubleDot;"]

/-- Modelled from the spec: does one of the dot alternatives, followed by the
closing mo tag that the malformed source literal evidently intended, start at
position p? -/
def moAltAt (cnt : List Char) (p : Nat) : Bool :=
  moAlts.any (fun alt => startsWithAt cnt alt p && startsWithAt cnt (toL "</mo>") (p + alt.length))

/-- Modelled from the spec: search loop for the intended dot pattern of
enforceMoverAccents — somewhere in the content an mo element must hold
exactly one dot or double-dot glyph. -/
def dotMoTestF : Nat → List Char → Nat → Bool
  | 0, _, _ => false
  | f+1, cnt, q =>
    match cnt.get? q with
    | none => false
    | some _ =>
      (startsWithAt cnt (toL "<mo") q &&
        (match findFrom cnt ['>'] (q + 3) with
         | some j => moAltAt cnt (j + 1)
         | none => false)) || dotMoTestF f cnt (q + 1)

def dotMoTest (cnt : List Char) : Bool := dotMoTestF (cnt.length + 1) cnt 0

/-- The test of the attribute pattern of enforceMoverAccents: a whitespace
character, the attribute name, optional whitespace, then an equals sign. -/
def hasAccentAttrF : Nat → List Char → Nat → Bool
  | 0, _, _ => false
  | f+1, a, q =>
    match a.get? q with
    | none => false
    | some c =>
      if isWs c && startsWithAt a (toL "accent") (q + 1)
          && a.get? (skipWs a (q + 7)) = some '=' then true
      else hasAccentAttrF f a (q + 1)

def hasAccentAttr (a : List Char) : Bool := hasAccentAttrF (a.length + 1) a 0

/-- The replacement callback of enforceMoverAccents: keep the matched text
when the content holds no recognized dot glyph or the attribute list already
declares an accent attribute, otherwise rebuild the element with an appended
explicit accent attribute. -/
def moverReplacement (whole attrs content : List Char) : List Char :=
  if !(dotMoTest content) then whole
  else if hasAccentAttr attrs then whole
  else toL "<mover" ++ (attrs ++ toL " accent=\"true\"") ++ ('>' :: content) ++ toL "</mover>"

/-- The global replace loop of enforceMoverAccents: find each mover element
(its attribute span running to the first closing angle bracket and its
content to the first closing mover tag) and emit the replacement for it,
copying all other characters unchanged. -/
def enforceMoverAccentsF : Nat → List Char → Nat → List Char
  | 0, _, _ => []
  | f+1, s, i =>
    match s.get? i with
    | none => []
    | some c =>
      if startsWithAt s (toL "<mover") i then
        match findFrom s ['>'] (i + 6) with
        | some j =>
          match findFrom s (toL "</mover>") (j + 1) with
          | some k =>
            moverReplacement (sliceL s i (k + 8)) (sliceL s (i + 6) j) (sliceL s (j + 1) k)
              ++ enforceMoverAccentsF f s (k + 8)
          | none => c :: enforceMoverAccentsF f s (i + 1)
        | none => c :: enforceMoverAccentsF f s (i + 1)
      else c :: enforceMoverAccentsF f s (i + 1)

def enforceMoverAccents (s : List Char) : List Char :=
  enforceMoverAccentsF (s.length + 1) s 0

/-! Progress lemmas: every reader either fails or strictly advances. -/

theorem skipWs_le (s : List Char) (i : Nat) : i ≤ skipWs s i :=
  Nat.le_add_right i _

theorem get_some_lt_length (s : List Char) (i : Nat) (c : Char)
    (h : s.get? i = some c) : i < s.length := by
  by_contra hc
  rw [List.get?_eq_none.mpr (by omega)] at h
  exact absurd h (by simp)

theorem readGroupLoopF_lt (f : Nat) : ∀ (s : List Char) (d : Int) (st idx : Nat)
    (g : GroupResult), readGroupLoopF f s d st idx = some g → idx < g.endPos := by
  induction f with
  | zero => intro s d st idx g h; simp [readGroupLoopF] at h
  | succ f ih =>
    intro s d st idx g h
    rw [readGroupLoopF] at h
    split at h
    · exact absurd h (by simp)
    · split at h
      · exact Nat.lt_of_succ_lt (ih _ _ _ _ _ h)
      · split at h
        · split at h
          · cases h; exact Nat.lt_succ_self idx
          · exact Nat.lt_of_succ_lt (ih _ _ _ _ _ h)
        · split at h
          · have := ih _ _ _ _ _ h; omega
          · exact Nat.lt_of_succ_lt (ih _ _ _ _ _ h)

theorem readGroup_lt (s : List Char) (i : Nat) (g : GroupResult)
    (h : readGroup s i = some g) : i < g.endPos := by
  rw [readGroup] at h
  split at h
  · exact readGroupLoopF_lt _ _ _ _ _ _ h
  · exact absurd h (by simp)

theorem readScript_lt (s : List Char) (i : Nat) (r : ScriptResult)
    (h : readScript s i = some r) : i < r.endPos := by
  have hsk := skipWs_le s (i + 1)
  rw [readScript] at h
  split at h
  · exact absurd h (by simp)
  · split at h
    · split at h
      · exact absurd h (by simp)
      · split at h
        · split at h
          · exact absurd h (by simp)
          · next g hg =>
            cases h
            have := readGroup_lt _ _ _ hg
            show i < g.endPos
            omega
        · split at h
          · split at h
            · exact absurd h (by simp)
            · cases h; show i < skipWs s (i+1) + 1 + _; omega
          · cases h; show i < skipWs s (i+1) + 1; omega
    · exact absurd h (by simp)

theorem collectAttachedScriptsF_le (f : Nat) : ∀ (s : List Char) (i : Nat),
    i ≤ (collectAttachedScriptsF f s i).endPos := by
  induction f with
  | zero => intro s i; exact Nat.le_refl i
  | succ f ih =>
    intro s i
    rw [collectAttachedScriptsF]
    split
    · rcases hr : readScript s (skipWs s i) with _ | r
      · exact Nat.le_refl i
      · have h1 := readScript_lt _ _ _ hr
        have h2 := skipWs_le s i
        have h3 := ih s r.endPos
        show i ≤ (collectAttachedScriptsF f s r.endPos).endPos
        omega
    · exact Nat.le_refl i

theorem collectAttachedScripts_le (s : List Char) (i : Nat) :
    i ≤ (collectAttachedScripts s i).endPos :=
  collectAttachedScriptsF_le _ s i

theorem readBaseToken_lt (s : List Char) (i : Nat) (b : BaseTokenResult)
    (h : readBaseToken s i = some b) : i < b.endPos := by
  have hsk := skipWs_le s i
  rw [readBaseToken] at h
  split at h
  · exact absurd h (by simp)
  · split at h
    · split at h
      · exact absurd h (by simp)
      · split at h
        · next g hget hg =>
          cases h
          have h1 := readGroup_lt _ _ _ hg
          have h2 := collectAttachedScripts_le s g.endPos
          show i < (collectAttachedScripts s g.endPos).endPos
          omega
        · cases h
          have h2 := collectAttachedScripts_le s
            (skipWs s i + 1 + countLetters s (skipWs s i + 1))
          show i < (collectAttachedScripts s
            (skipWs s i + 1 + countLetters s (skipWs s i + 1))).endPos
          omega
    · split at h
      · split at h
        · exact absurd h (by simp)
        · next g hg =>
          cases h
          have h1 := readGroup_lt _ _ _ hg
          have h2 := collectAttachedScripts_le s g.endPos
          show i < (collectAttachedScripts s g.endPos).endPos
          omega
      · cases h
        have h2 := collectAttachedScripts_le s (skipWs s i + 1)
        show i < (collectAttachedScripts s (skipWs s i + 1)).endPos
        omega

theorem readUpToTwo_lt (s : List Char) (c : Nat) (m : ScriptMatch)
    (h : scriptsToMatch (readUpToTwo s c).1 (readUpToTwo s c).2 = some m) :
    c < m.nextIndex := by
  rw [readUpToTwo] at h
  rcases h1 : readScript s c with _ | r1
  · rw [h1] at h
    exact absurd h (by simp [scriptsToMatch])
  · rw [h1] at h
    dsimp only at h
    have hr1 := readScript_lt _ _ _ h1
    rcases h2 : readScript s (skipWs s r1.endPos) with _ | r2
    · rw [h2] at h
      rw [scriptsToMatch] at h
      simp only [List.isEmpty_cons] at h
      rw [if_neg (by simp)] at h
      cases h
      have := skipWs_le s r1.endPos
      show c < skipWs s r1.endPos
      omega
    · rw [h2] at h
      have hr2 := readScript_lt _ _ _ h2
      have hs1 := skipWs_le s r1.endPos
      have hs2 := skipWs_le s r2.endPos
      rw [scriptsToMatch] at h
      rw [if_neg (by simp)] at h
      cases h
      show c < skipWs s r2.endPos
      omega

theorem matchLeftScripts_lt (s : List Char) (i : Nat) (m : ScriptMatch)
    (h : matchLeftScripts s i = some m) : i < m.nextIndex := by
  rw [matchLeftScripts] at h
  split at h
  · have h1 := readUpToTwo_lt s _ _ h
    have h2 := skipWs_le s (i + 2)
    omega
  · split at h
    · split at h
      · next hi => subst hi; exact readUpToTwo_lt s _ _ h
      · split at h
        · split at h
          · exact readUpToTwo_lt s _ _ h
          · exact absurd h (by simp)
        · exact absurd h (by simp)
    · exact absurd h (by simp)

theorem detectDerivativeCommand_lt (s : List Char) (i : Nat) (d : DerivativeCommand)
    (h : detectDerivativeCommand s i = some d) : i < d.nextIndex := by
  rw [detectDerivativeCommand] at h
  split at h
  · cases h; show i < i + 5; omega
  · split at h
    · cases h; show i < i + 4; omega
    · exact absurd h (by simp)

theorem readDerivativeTarget_lt (s : List Char) (i : Nat) (b : BaseTokenResult)
    (h : readDerivativeTarget s i = some b) : i < b.endPos := by
  have hsk := skipWs_le s i
  rw [readDerivativeTarget] at h
  split at h
  · exact absurd h (by simp)
  · split at h
    · split at h
      · exact absurd h (by simp)
      · next g hg =>
        cases h
        have h1 := readGroup_lt _ _ _ hg
        show i < g.endPos
        omega
    · split at h
      · split at h
        · exact absurd h (by simp)
        · split at h
          · next g hget hg =>
            cases h
            have h1 := readGroup_lt _ _ _ hg
            have h2 := collectAttachedScripts_le s g.endPos
            show i < (collectAttachedScripts s g.endPos).endPos
            omega
          · cases h
            have h2 := collectAttachedScripts_le s
              (skipWs s i + 1 + countLetters s (skipWs s i + 1))
            show i < (collectAttachedScripts s
              (skipWs s i + 1 + countLetters s (skipWs s i + 1))).endPos
            omega
      · cases h
        have h2 := collectAttachedScripts_le s (skipWs s i + 1)
        show i < (collectAttachedScripts s (skipWs s i + 1)).endPos
        omega

/-! Fuel insensitivity: both scanning loops finish within any sufficient
fuel bound, since every branch strictly advances the cursor. -/

theorem rewriteLeftScriptsF_congr (f : Nat) : ∀ (g : Nat) (s : List Char) (i : Nat),
    s.length ≤ i + f → s.length ≤ i + g →
    rewriteLeftScriptsF f s i = rewriteLeftScriptsF g s i := by
  induction f with
  | zero =>
    intro g s i hf hg
    cases g with
    | zero => rfl
    | succ g =>
      rw [rewriteLeftScriptsF, rewriteLeftScriptsF,
        List.get?_eq_none.mpr (by omega)]
  | succ f ih =>
    intro g s i hf hg
    cases g with
    | zero =>
      rw [rewriteLeftScriptsF, rewriteLeftScriptsF,
        List.get?_eq_none.mpr (by omega)]
    | succ g =>
      rw [rewriteLeftScriptsF]
      conv_rhs => rw [rewriteLeftScriptsF]
      cases hc : s.get? i with
      | none => rfl
      | some c =>
        dsimp only
        have hilen : i < s.length := get_some_lt_length s i c hc
        cases hm : matchLeftScripts s i with
        | none => dsimp only; rw [ih g s (i+1) (by omega) (by omega)]
        | some m =>
          dsimp only
          have h1 := matchLeftScripts_lt s i m hm
          cases hb : readBaseToken s m.nextIndex with
          | none => dsimp only; rw [ih g s m.nextIndex (by omega) (by omega)]
          | some b =>
            dsimp only
            have h2 := readBaseToken_lt s m.nextIndex b hb
            by_cases hs : shouldSkipBase b.token = true
            · simp only [hs, if_true]
              rw [ih g s b.endPos (by omega) (by omega)]
            · simp only [Bool.not_eq_true] at hs
              simp only [hs, Bool.false_eq_true, if_false]
              rw [ih g s b.endPos (by omega) (by omega)]

theorem normalizeDerivativesF_congr (f : Nat) : ∀ (g : Nat) (s : List Char) (i : Nat),
    s.length ≤ i + f → s.length ≤ i + g →
    normalizeDerivativesF f s i = normalizeDerivativesF g s i := by
  induction f with
  | zero =>
    intro g s i hf hg
    cases g with
    | zero => rfl
    | succ g =>
      rw [normalizeDerivativesF, normalizeDerivativesF,
        List.get?_eq_none.mpr (by omega)]
  | succ f ih =>
    intro g s i hf hg
    cases g with
    | zero =>
      rw [normalizeDerivativesF, normalizeDerivativesF,
        List.get?_eq_none.mpr (by omega)]
    | succ g =>
      rw [normalizeDerivativesF]
      conv_rhs => rw [normalizeDerivativesF]
      cases hc : s.get? i with
      | none => rfl
      | some c =>
        dsimp only
        have hilen : i < s.length := get_some_lt_length s i c hc
        cases hd : detectDerivativeCommand s i with
        | none => dsimp only; rw [ih g s (i+1) (by omega) (by omega)]
        | some d =>
          dsimp only
          have h1 := detectDerivativeCommand_lt s i d hd
          cases ht : readDerivativeTarget s d.nextIndex with
          | none => dsimp only; rw [ih g s (i+1) (by omega) (by omega)]
          | some t =>
            dsimp only
            have h2 := readDerivativeTarget_lt s d.nextIndex t ht
            rw [ih g s t.endPos (by omega) (by omega)]

/-! Claim theorems. -/

/-- Claim C1: the literal end-to-end scenarios of normalizeLatex: an
empty-base subscript-superscript pair before a base becomes a zero-width
space and a prescript construct; a missing side defaults to the mathstrut
placeholder; ordinary trailing scripts with no empty-base lead-in are
returned unchanged. -/
theorem normalize_end_to_end_scenarios :
    normalizeLatex (toL "\x7b\x7d_\x7b3\x7d^\x7b0\x7dR")
        = toL "\\hspace\x7b0pt\x7d\\prescript\x7b0\x7d\x7b3\x7d\x7bR\x7d" ∧
    normalizeLatex (toL "\x7b\x7d^\x7b0\x7d\\upsilon_\x7b3\x7d")
        = toL "\\hspace\x7b0pt\x7d\\prescript\x7b0\x7d\x7b\\mathstrut\x7d\x7b\\upsilon_\x7b3\x7d\x7d" ∧
    normalizeLatex (toL "R_\x7b3\x7d^\x7b0\x7d") = toL "R_\x7b3\x7d^\x7b0\x7d" :=
  ⟨by decide, by decide, by decide⟩

/-- Claim C2: normalizeLatex is exactly the composition of cleanEnvironments,
rewriteLeftScripts and normalizeDerivatives in that order (a total,
deterministic Lean function, hence free of exceptions), and the empty input
yields the empty output. -/
theorem normalize_pipeline_composition :
    (∀ s : List Char,
      normalizeLatex s = normalizeDerivatives (rewriteLeftScripts (cleanEnvironments s))) ∧
    normalizeLatex [] = [] := by
  constructor
  · intro s
    cases s with
    | nil => decide
    | cons c t => rfl
  · rfl

/-- Claim C3: every reader (script reader, brace-group reader, base-token
reader, left-script matcher, derivative detector) either fails or returns a
position strictly greater than its start position, and consequently the two
scanning loops finish within any sufficient fuel bound on every input. -/
theorem readers_progress_and_loops_terminate :
    (∀ (s : List Char) (i : Nat) (r : ScriptResult), readScript s i = some r → i < r.endPos) ∧
    (∀ (s : List Char) (i : Nat) (g : GroupResult), readGroup s i = some g → i < g.endPos) ∧
    (∀ (s : List Char) (i : Nat) (b : BaseTokenResult), readBaseToken s i = some b → i < b.endPos) ∧
    (∀ (s : List Char) (i : Nat) (m : ScriptMatch), matchLeftScripts s i = some m → i < m.nextIndex) ∧
    (∀ (s : List Char) (i : Nat) (d : DerivativeCommand),
      detectDerivativeCommand s i = some d → i < d.nextIndex) ∧
    (∀ (s : List Char) (f : Nat), s.length + 1 ≤ f →
      rewriteLeftScriptsF f s 0 = rewriteLeftScripts s) ∧
    (∀ (s : List Char) (f : Nat), s.length + 1 ≤ f →
      normalizeDerivativesF f s 0 = normalizeDerivatives s) := by
  refine ⟨readScript_lt, readGroup_lt, readBaseToken_lt, matchLeftScripts_lt,
    detectDerivativeCommand_lt, ?_, ?_⟩
  · intro s f hf
    exact rewriteLeftScriptsF_congr f (s.length + 1) s 0 (by omega) (by omega)
  · intro s f hf
    exact normalizeDerivativesF_congr f (s.length + 1) s 0 (by omega) (by omega)

/-- Concrete instantiation of the progress and termination conjuncts at
small inputs, discharging every hypothesis. -/
theorem readers_progress_witness :
    (0 < 2) ∧ (0 < 3) ∧ (0 < 1) ∧ (0 < 4) ∧ (0 < 4) ∧
    rewriteLeftScriptsF 3 (toL "x") 0 = rewriteLeftScripts (toL "x") ∧
    normalizeDerivativesF 3 (toL "x") 0 = normalizeDerivatives (toL "x") :=
  ⟨readers_progress_and_loops_terminate.1 (toL "_a") 0 ⟨'_', toL "a", 2⟩ (by decide),
   readers_progress_and_loops_terminate.2.1 (toL "\x7ba\x7d") 0 ⟨toL "a", 3⟩ (by decide),
   readers_progress_and_loops_terminate.2.2.1 (toL "x") 0 ⟨toL "x", 1, []⟩ (by decide),
   readers_progress_and_loops_terminate.2.2.2.1 (toL "\x7b\x7d_a") 0 ⟨toL "a", [], 4⟩ (by decide),
   readers_progress_and_loops_terminate.2.2.2.2.1 (toL "\\dot\x7bx\x7d") 0 ⟨1, 4⟩ (by decide),
   readers_progress_and_loops_terminate.2.2.2.2.2.1 (toL "x") 3 (by decide),
   readers_progress_and_loops_terminate.2.2.2.2.2.2 (toL "x") 3 (by decide)⟩

/-- Claim C4 counterexample: a bare subscript preceded by an asterisk, a
character outside the claim's list, is matched rather than rejected. -/
theorem matchLeftScripts_star_counterexample :
    matchLeftScripts (toL "a*_\x7bb\x7dc") 2 = some ⟨toL "b", [], 6⟩ := by decide

/-- Claim C4 (amended): the matcher succeeds only via the empty-base marker
lead-in or a bare script indicator at position zero or preceded by a
character of the accepted class (whitespace, an opening parenthesis, bracket
or brace, equals, plus, minus, asterisk, or slash), and a bare indicator
preceded by any character outside that class yields no match. -/
theorem matchLeftScripts_lead_in :
    (∀ (s : List Char) (i : Nat) (m : ScriptMatch), matchLeftScripts s i = some m →
      (s.get? i = some '\x7b' ∧ s.get? (i + 1) = some '\x7d') ∨
      ((s.get? i = some '^' ∨ s.get? i = some '_') ∧
        (i = 0 ∨ ∃ p, s.get? (i - 1) = some p ∧ leadCharOk p = true))) ∧
    (∀ (s : List Char) (i : Nat) (p : Char),
      (s.get? i = some '^' ∨ s.get? i = some '_') → 0 < i →
      s.get? (i - 1) = some p → leadCharOk p = false →
      matchLeftScripts s i = none) := by
  constructor
  · intro s i m h
    rw [matchLeftScripts] at h
    split at h
    · next hc => exact Or.inl hc
    · split at h
      · next hc =>
        split at h
        · next hi => exact Or.inr ⟨hc, Or.inl hi⟩
        · split at h
          · split at h
            · next p hp hok => exact Or.inr ⟨hc, Or.inr ⟨p, hp, hok⟩⟩
            · exact absurd h (by simp)
          · exact absurd h (by simp)
      · exact absurd h (by simp)
  · intro s i p hind hi hp hok
    rw [matchLeftScripts]
    rw [if_neg]
    · rw [if_pos hind, if_neg (by omega), hp]
      dsimp only
      rw [if_neg (by simp [hok])]
    · intro hcc
      rcases hind with hc | hc <;> rw [hc] at hcc <;> exact absurd hcc.1 (by decide)

/-- Concrete instantiation of both conjuncts of the amended matcher claim. -/
theorem matchLeftScripts_lead_in_witness :
    ((toL "\x7b\x7d_a").get? 0 = some '\x7b' ∧ (toL "\x7b\x7d_a").get? 1 = some '\x7d') ∨
      (((toL "\x7b\x7d_a").get? 0 = some '^' ∨ (toL "\x7b\x7d_a").get? 0 = some '_') ∧
        (0 = 0 ∨ ∃ p, (toL "\x7b\x7d_a").get? 0 = some p ∧ leadCharOk p = true)) := by
  have h1 := matchLeftScripts_lead_in.1 (toL "\x7b\x7d_a") 0 ⟨toL "a", [], 4⟩ (by decide)
  have h2 := matchLeftScripts_lead_in.2 (toL "x_\x7bb\x7d") 1 'x'
    (Or.inr (by decide)) (by decide) (by decide) (by decide)
  simpa using h1

theorem matchLeftScripts_get_isSome (s : List Char) (i : Nat) (m : ScriptMatch)
    (h : matchLeftScripts s i = some m) : ∃ c, s.get? i = some c := by
  rw [matchLeftScripts] at h
  split at h
  · next hc => exact ⟨'\x7b', hc.1⟩
  · split at h
    · next hc => exact hc.elim (fun hc2 => ⟨'^', hc2⟩) (fun hc2 => ⟨'_', hc2⟩)
    · exact absurd h (by simp)

/-- Claim C5: when the base token of a left-script match starts, after
trimming, with one of the non-substantive sizing or delimiter commands, the
rewriter copies the original text from the match start through the end of the
base token unchanged (emitting no prescript construct) and resumes scanning
immediately after it. -/
theorem skip_list_copies_through (s : List Char) (f i : Nat) (m : ScriptMatch)
    (b : BaseTokenResult)
    (hm : matchLeftScripts s i = some m)
    (hb : readBaseToken s m.nextIndex = some b)
    (hskip : disallowedBases.any (fun p => p.isPrefixOf (trimWs b.token)) = true) :
    rewriteLeftScriptsF (f + 1) s i = sliceL s i b.endPos ++ rewriteLeftScriptsF f s b.endPos := by
  obtain ⟨c, hc⟩ := matchLeftScripts_get_isSome s i m hm
  have hsk : shouldSkipBase b.token = true := by
    rw [shouldSkipBase]
    split
    · rfl
    · exact hskip
  rw [rewriteLeftScriptsF, hc]
  dsimp only
  rw [hm]
  dsimp only
  rw [hb]
  dsimp only
  rw [if_pos hsk]

/-- Concrete instantiation of the skip-list claim: the left-script notation
ahead of a sizing command is copied through verbatim. -/
theorem skip_list_copies_through_witness :
    rewriteLeftScriptsF 1 (toL "\x7b\x7d_\x7b3\x7d^\x7b0\x7d\\left(x\\right)") 0 =
      sliceL (toL "\x7b\x7d_\x7b3\x7d^\x7b0\x7d\\left(x\\right)") 0 15
        ++ rewriteLeftScriptsF 0 (toL "\x7b\x7d_\x7b3\x7d^\x7b0\x7d\\left(x\\right)") 15 :=
  skip_list_copies_through (toL "\x7b\x7d_\x7b3\x7d^\x7b0\x7d\\left(x\\right)") 0 0
    ⟨toL "3", toL "0", 10⟩ ⟨toL "\\left", 15, []⟩ (by decide) (by decide) (by decide)

/-- Claim C6: the derivative detector matches the double-dot and single-dot
commands only when the character following the command name is not a letter,
mapping them to accent orders 2 and 1, and the rewriter replaces the command
and its target with an overset overlay holding the single-dot glyph (order 1)
or the double-dot glyph (order 2) above the target. -/
theorem derivative_detection_and_rewrite :
    (∀ (s : List Char) (i : Nat) (d : DerivativeCommand),
      detectDerivativeCommand s i = some d →
      (startsWithAt s (toL "\\ddot") i = true ∧ isLetterOpt (s.get? (i + 5)) = false ∧
        d = ⟨2, i + 5⟩) ∨
      (startsWithAt s (toL "\\dot") i = true ∧ isLetterOpt (s.get? (i + 4)) = false ∧
        d = ⟨1, i + 4⟩)) ∧
    normalizeDerivatives (toL "\\dot\x7b\\theta\x7d") = toL "\\overset\x7b˙\x7d\x7b\\theta\x7d" ∧
    normalizeDerivatives (toL "\\ddot\x7bq\x7d") = toL "\\overset\x7b¨\x7d\x7bq\x7d" := by
  refine ⟨?_, by decide, by decide⟩
  intro s i d h
  rw [detectDerivativeCommand] at h
  split at h
  · next hcond =>
    cases h
    rw [Bool.and_eq_true, Bool.not_eq_true'] at hcond
    exact Or.inl ⟨hcond.1, hcond.2, rfl⟩
  · split at h
    · next hcond =>
      cases h
      rw [Bool.and_eq_true, Bool.not_eq_true'] at hcond
      exact Or.inr ⟨hcond.1, hcond.2, rfl⟩
    · exact absurd h (by simp)

/-- Concrete instantiation of the detector conjunct of the derivative
claim. -/
theorem derivative_detection_witness :
    (startsWithAt (toL "\\ddot\x7bq\x7d") (toL "\\ddot") 0 = true ∧
      isLetterOpt ((toL "\\ddot\x7bq\x7d").get? 5) = false ∧
      (⟨2, 5⟩ : DerivativeCommand) = ⟨2, 0 + 5⟩) ∨
    (startsWithAt (toL "\\ddot\x7bq\x7d") (toL "\\dot") 0 = true ∧
      isLetterOpt ((toL "\\ddot\x7bq\x7d").get? 4) = false ∧
      (⟨2, 5⟩ : DerivativeCommand) = ⟨1, 0 + 4⟩) :=
  derivative_detection_and_rewrite.1 (toL "\\ddot\x7bq\x7d") 0 ⟨2, 5⟩ (by decide)

/-- Claim C7, settled against the intended dot pattern: the source's
dot-pattern regex literal (mathml.ts line 374) is a syntax error — its
closing mo tag's slash is unescaped, terminating the literal early with the
invalid flags "mo" — so the accent pass as written cannot run at all, and
dotMoTest models the evidently intended pattern from the spec's wording.
Against that model, the replacement adds an explicit accent attribute to a
mover element whose content holds a recognized dot or double-dot glyph and
whose attribute list does not already declare one, and leaves the element
unchanged otherwise; the scanning pass applies this to every mover element
of its input. -/
theorem mover_accent_enforcement :
    (∀ whole attrs content : List Char,
      (dotMoTest content = true → hasAccentAttr attrs = false →
        moverReplacement whole attrs content =
          toL "<mover" ++ (attrs ++ toL " accent=\"true\"") ++ ('>' :: content) ++ toL "</mover>") ∧
      (hasAccentAttr attrs = true → moverReplacement whole attrs content = whole) ∧
      (dotMoTest content = false → moverReplacement whole attrs content = whole)) ∧
    enforceMoverAccents (toL "<mover><mo>˙</mo><mi>x</mi></mover>")
      = toL "<mover accent=\"true\"><mo>˙</mo><mi>x</mi></mover>" ∧
    enforceMoverAccents (toL "<mover accent=\"false\"><mo>&Dot;</mo><mi>x</mi></mover>")
      = toL "<mover accent=\"false\"><mo>&Dot;</mo><mi>x</mi></mover>" ∧
    enforceMoverAccents (toL "<mover><mo>y</mo><mi>x</mi></mover>")
      = toL "<mover><mo>y</mo><mi>x</mi></mover>" := by
  refine ⟨?_, by decide, by decide, by decide⟩
  intro whole attrs content
  refine ⟨?_, ?_, ?_⟩
  · intro hdot hacc
    rw [moverReplacement, hdot, hacc]
    rfl
  · intro hacc
    rw [moverReplacement, hacc]
    split
    · rfl
    · rfl
  · intro hdot
    rw [moverReplacement, hdot]
    rfl

/-- Concrete instantiation of the replacement conjuncts of the mover accent
claim. -/
theorem mover_accent_enforcement_witness :
    moverReplacement (toL "w") (toL "") (toL "<mo>˙</mo>") =
      toL "<mover" ++ (toL "" ++ toL " accent=\"true\"") ++ ('>' :: toL "<mo>˙</mo>")
        ++ toL "</mover>" ∧
    moverReplacement (toL "w") (toL " accent=\"true\"") (toL "<mo>˙</mo>") = toL "w" ∧
    moverReplacement (toL "w") (toL "") (toL "<mo>y</mo>") = toL "w" :=
  ⟨(mover_accent_enforcement.1 (toL "w") (toL "") (toL "<mo>˙</mo>")).1 (by decide) (by decide),
   (mover_accent_enforcement.1 (toL "w") (toL " accent=\"true\"") (toL "<mo>˙</mo>")).2.1
     (by decide),
   (mover_accent_enforcement.1 (toL "w") (toL "") (toL "<mo>y</mo>")).2.2 (by decide)⟩

/-- Claim C8 counterexample: normalizeLatex is not idempotent: a left-script
notation nested inside a superscript argument survives the first run inside
the emitted prescript argument and is rewritten again by the second run. -/
theorem normalize_not_idempotent :
    normalizeLatex (normalizeLatex (toL "\x7b\x7d^\x7b\x7b\x7d_\x7b1\x7dR\x7dS"))
      ≠ normalizeLatex (toL "\x7b\x7d^\x7b\x7b\x7d_\x7b1\x7dR\x7dS") := by decide

/-- Claim C8 (amended): normalizeLatex is idempotent on the end-to-end
scenario inputs of the specification and on the derivative examples, though
not on every input, since a left-script notation nested inside a script
argument is re-matched by a second run. -/
theorem normalize_idempotent_on_scenarios :
    normalizeLatex (normalizeLatex (toL "\x7b\x7d_\x7b3\x7d^\x7b0\x7dR"))
      = normalizeLatex (toL "\x7b\x7d_\x7b3\x7d^\x7b0\x7dR") ∧
    normalizeLatex (normalizeLatex (toL "\x7b\x7d^\x7b0\x7d\\upsilon_\x7b3\x7d"))
      = normalizeLatex (toL "\x7b\x7d^\x7b0\x7d\\upsilon_\x7b3\x7d") ∧
    normalizeLatex (normalizeLatex (toL "\x7b\x7d^\x7b0\x7d_\x7b3\x7d\\mathbf\x7bR\x7d"))
      = normalizeLatex (toL "\x7b\x7d^\x7b0\x7d_\x7b3\x7d\\mathbf\x7bR\x7d") ∧
    normalizeLatex (normalizeLatex (toL "R_\x7b3\x7d^\x7b0\x7d"))
      = normalizeLatex (toL "R_\x7b3\x7d^\x7b0\x7d") ∧
    normalizeLatex (normalizeLatex (toL "\\dot\x7b\\theta\x7d"))
      = normalizeLatex (toL "\\dot\x7b\\theta\x7d") ∧
    normalizeLatex (normalizeLatex (toL "\\ddot\x7bq\x7d"))
      = normalizeLatex (toL "\\ddot\x7bq\x7d") :=
  ⟨by decide, by decide, by decide, by decide, by decide, by decide⟩

/-- Claim C9 counterexample: the base-token reader fails on a backslash
followed by a digit although a character remains after whitespace
skipping. -/
theorem readBaseToken_counterexample :
    readBaseToken (toL "\\1") 0 = none ∧
    (toL "\\1").get? (skipWs (toL "\\1") 0) = some '\\' := by
  exact ⟨by decide, by decide⟩

/-- Claim C9 (amended): the base-token reader fails exactly when, after
skipping leading whitespace, the end of the string is reached, or the first
character is a backslash not followed by an ASCII letter, or it is an opening
brace whose group is unterminated. -/
theorem readBaseToken_none_characterization (s : List Char) (i : Nat) :
    readBaseToken s i = none ↔
      (s.get? (skipWs s i) = none ∨
       (s.get? (skipWs s i) = some '\\' ∧ countLetters s (skipWs s i + 1) = 0) ∨
       (s.get? (skipWs s i) = some '\x7b' ∧ readGroup s (skipWs s i) = none)) := by
  rw [readBaseToken]
  rcases hc : s.get? (skipWs s i) with _ | c
  · simp
  · dsimp only
    by_cases h1 : c = '\\'
    · subst h1
      rw [if_pos rfl]
      by_cases h2 : countLetters s (skipWs s i + 1) = 0
      · simp [h2]
      · rw [if_neg h2]
        constructor
        · intro hcon
          exact absurd hcon (by split <;> simp)
        · intro hcon
          rcases hcon with hcon | hcon | hcon
          · exact absurd hcon (by simp)
          · exact absurd hcon.2 h2
          · exact absurd hcon.1 (by decide)
    · rw [if_neg h1]
      by_cases h3 : c = '\x7b'
      · subst h3
        rw [if_pos rfl]
        rcases hg : readGroup s (skipWs s i) with _ | g
        · simp [hg]
        · simp [hg]
      · rw [if_neg h3]
        constructor
        · intro hcon
          exact absurd hcon (by simp)
        · intro hcon
          rcases hcon with hcon | hcon | hcon
          · exact absurd hcon (by simp)
          · exact absurd hcon.1 (by simp [h1])
          · exact absurd hcon.1 (by simp [h3])

/-- Claim C10: when the empty-base lead-in is followed by two readable
scripts of the same kind, the matcher consumes both, the returned value for
that side is the second script's value (the later script overwrites the
earlier one), and the other side is returned as the empty string. -/
theorem duplicate_scripts_overwrite (s : List Char) (i : Nat) (r1 r2 : ScriptResult)
    (hlead : s.get? i = some '\x7b' ∧ s.get? (i + 1) = some '\x7d')
    (h1 : readScript s (skipWs s (i + 2)) = some r1)
    (h2 : readScript s (skipWs s r1.endPos) = some r2)
    (hsame : r1.type = r2.type) :
    matchLeftScripts s i =
      some ⟨(if r2.type = '_' then r2.value else []),
        (if r2.type = '^' then r2.value else []), skipWs s r2.endPos⟩ := by
  rw [matchLeftScripts, if_pos hlead, readUpToTwo, h1]
  dsimp only
  rw [h2]
  dsimp only
  rw [scriptsToMatch]
  rw [if_neg (by simp)]
  dsimp only [List.foldl]
  by_cases hu : r2.type = '_'
  · rw [hsame, hu]
    simp
  · by_cases hv : r2.type = '^'
    · rw [hsame, hv]
      simp
    · rw [hsame]
      simp [hu, hv]

/-- Concrete instantiation of the duplicate-script claim: two subscripts
after the empty-base marker yield the second subscript value and an empty
superscript. -/
theorem duplicate_scripts_overwrite_witness :
    matchLeftScripts (toL "\x7b\x7d_\x7ba\x7d_\x7bb\x7d") 0 =
      some ⟨(if ('_' : Char) = '_' then toL "b" else []),
        (if ('_' : Char) = '^' then toL "b" else []),
        skipWs (toL "\x7b\x7d_\x7ba\x7d_\x7bb\x7d") 10⟩ :=
  duplicate_scripts_overwrite (toL "\x7b\x7d_\x7ba\x7d_\x7bb\x7d") 0
    ⟨'_', toL "a", 6⟩ ⟨'_', toL "b", 10⟩ ⟨by decide, by decide⟩ (by decide) (by decide) (by decide)
